import Mathlib

/-!
Shallow embedding of the ledger-validation core (`src/blockchain.rs`).

The repository's only algorithmic file is `Blockchain::update_with_block`.
The collaborator types `Block` and `Transaction` are consumed, not
implemented, by this core; they are embedded as structures exposing exactly
the accessors the core reads (`index`, `timestamp`, `prev_block_hash`,
`hash`, `transactions`; `is_coinbase`, `input_hashes`, `output_hashes`,
`input_value`, `output_value`).  The proof-of-work predicate
`block::check_difficulty` and the recomputed digest `block.hash()` are
collaborator-defined, so the embedding is parametric in both.

Machine integers: `index` is `u32` and the Rust code compares it with
`self.blocks.len() as u32`, embedded as `% 2 ^ 32`; the fee accumulator is
`u64`, embedded with `% 2 ^ 64` on the addition.  Hashes are byte vectors
(`Vec<u8>`), embedded as `List Nat`.
-/

/-- Byte-vector hash (`Hash = Vec<u8>` in the source). -/
abbrev Hash : Type := List Nat

/-- A transaction, abstracted by the accessors `update_with_block` reads. -/
structure Transaction where
  is_coinbase : Bool
  input_hashes : Finset Hash
  output_hashes : Finset Hash
  input_value : Nat
  output_value : Nat
deriving DecidableEq

/-- A block, abstracted by the fields `update_with_block` reads. -/
structure Block where
  index : Nat
  timestamp : Nat
  prev_block_hash : Hash
  hash : Hash
  transactions : List Transaction
deriving DecidableEq

/-- `enum BlockValidationErr` from `src/blockchain.rs`. -/
inductive BlockValidationErr where
  | InvalidHash
  | InvalidInput
  | MismatchedIndex
  | MismatchedPreviousHash
  | AchronologicalTimestamp
  | InvalidCoinbaseTransaction
  | InvalidGenesisBlockFormat
  | InsufficientInputValue
deriving DecidableEq

deriving instance DecidableEq for Except

/-- `struct Blockchain` from `src/blockchain.rs`. -/
structure Blockchain where
  blocks : List Block
  unspent_outputs : Finset Hash
  difficulty : Nat
deriving DecidableEq

/-- `Blockchain::new(difficulty)`. -/
def Blockchain.new (difficulty : Nat) : Blockchain :=
  { blocks := [], unspent_outputs := ∅, difficulty := difficulty }

/-- The `for transaction in transactions` loop of `update_with_block`:
threads the accumulators `block_spent`, `block_created` and `total_fee`
through the non-coinbase transactions, returning the first validation error
or the final accumulator values.  The `u64` addition `total_fee += fee`
wraps, hence the `% 2 ^ 64`. -/
def processTransactions (unspent : Finset Hash) :
    List Transaction → Finset Hash → Finset Hash → Nat →
    Except BlockValidationErr (Finset Hash × Finset Hash × Nat)
  | [], block_spent, block_created, total_fee =>
    .ok (block_spent, block_created, total_fee)
  | t :: ts, block_spent, block_created, total_fee =>
    if ¬ (t.input_hashes \ unspent = ∅) ∨ ¬ (t.input_hashes ∩ block_spent = ∅) then
      .error .InvalidInput
    else if t.output_value > t.input_value then
      .error .InsufficientInputValue
    else
      processTransactions unspent ts (block_spent ∪ t.input_hashes)
        (block_created ∪ t.output_hashes)
        ((total_fee + (t.input_value - t.output_value)) % 2 ^ 64)

/-- The tail of `update_with_block` after the structural checks: the
`split_first` match on the transaction list, the coinbase checks, the
transaction loop, and the commit (`retain`/`extend`/`push`). -/
def applyTransactions (c : Blockchain) (block : Block) :
    Except BlockValidationErr Unit × Blockchain :=
  match block.transactions with
  | [] => (.ok (), { c with blocks := c.blocks ++ [block] })
  | coinbase :: transactions =>
    if ¬ coinbase.is_coinbase then
      (.error .InvalidCoinbaseTransaction, c)
    else
      match processTransactions c.unspent_outputs transactions ∅ ∅ 0 with
      | .error e => (.error e, c)
      | .ok (block_spent, block_created, total_fee) =>
        if coinbase.output_value < total_fee then
          (.error .InvalidCoinbaseTransaction, c)
        else
          (.ok (), { c with
            unspent_outputs :=
              (c.unspent_outputs \ block_spent) ∪
                (block_created ∪ coinbase.output_hashes),
            blocks := c.blocks ++ [block] })

/-- `Blockchain::update_with_block`, parametric in the collaborator-defined
proof-of-work predicate `check_difficulty` and digest function `hashFn`
(the source's `block.hash()`).  The `&mut self` method is embedded in
state-passing style: the returned `Blockchain` is the state after the call,
on errors as well as on success. -/
def update_with_block (check_difficulty : Hash → Nat → Bool)
    (hashFn : Block → Hash) (c : Blockchain) (block : Block) :
    Except BlockValidationErr Unit × Blockchain :=
  if block.index ≠ c.blocks.length % 2 ^ 32 then
    (.error .MismatchedIndex, c)
  else if ¬ check_difficulty (hashFn block) c.difficulty then
    (.error .InvalidHash, c)
  else
    match c.blocks.getLast? with
    | some prev_block =>
      -- Not genesis block
      if block.timestamp ≤ prev_block.timestamp then
        (.error .AchronologicalTimestamp, c)
      else if block.prev_block_hash ≠ prev_block.hash then
        (.error .InvalidHash, c)
      else
        applyTransactions c block
    | none =>
      -- Genesis block
      if block.prev_block_hash ≠ List.replicate 32 0 then
        (.error .InvalidGenesisBlockFormat, c)
      else
        applyTransactions c block

/-- The structural linkage/genesis check of `update_with_block` as a
predicate: the branch on `i != 0` comparing timestamp and previous hash,
or the genesis sentinel comparison. -/
def structuralLinkOk (c : Blockchain) (block : Block) : Bool :=
  match c.blocks.getLast? with
  | some prev_block =>
    prev_block.timestamp < block.timestamp ∧
      block.prev_block_hash = prev_block.hash
  | none => block.prev_block_hash = List.replicate 32 0

/-- Ledger states reachable from `Blockchain.new` by successful
`update_with_block` calls. -/
inductive Reachable (check_difficulty : Hash → Nat → Bool)
    (hashFn : Block → Hash) : Blockchain → Prop where
  | base (d : Nat) : Reachable check_difficulty hashFn (Blockchain.new d)
  | step {c c' : Blockchain} {b : Block} :
      Reachable check_difficulty hashFn c →
      update_with_block check_difficulty hashFn c b = (.ok (), c') →
      Reachable check_difficulty hashFn c'

example : (update_with_block (fun _ _ => true) (fun _ => [])
    (Blockchain.new 0)
    { index := 0, timestamp := 0, prev_block_hash := List.replicate 32 0,
      hash := [], transactions := [] }).1 = .ok () := by decide

example : (update_with_block (fun _ _ => true) (fun _ => [])
    (Blockchain.new 0)
    { index := 1, timestamp := 0, prev_block_hash := List.replicate 32 0,
      hash := [], transactions := [] }).1 = .error .MismatchedIndex := by
  decide

/-! ### Helper lemmas about the embedded operations -/

theorem applyTransactions_state_or_ok (c : Blockchain) (b : Block) :
    (applyTransactions c b).2 = c ∨ (applyTransactions c b).1 = .ok () := by
  unfold applyTransactions
  split
  · right; rfl
  · split
    · left; rfl
    · split
      · left; rfl
      · split
        · left; rfl
        · right; rfl

theorem update_state_or_ok (cd : Hash → Nat → Bool) (hf : Block → Hash)
    (c : Blockchain) (b : Block) :
    (update_with_block cd hf c b).2 = c ∨
      (update_with_block cd hf c b).1 = .ok () := by
  unfold update_with_block
  split
  · left; rfl
  · split
    · left; rfl
    · split
      · split
        · left; rfl
        · split
          · left; rfl
          · exact applyTransactions_state_or_ok c b
      · split
        · left; rfl
        · exact applyTransactions_state_or_ok c b

theorem update_structural (cd : Hash → Nat → Bool) (hf : Block → Hash)
    (c : Blockchain) (b : Block)
    (hidx : b.index = c.blocks.length % 2 ^ 32)
    (hdif : cd (hf b) c.difficulty = true)
    (hlink : structuralLinkOk c b = true) :
    update_with_block cd hf c b = applyTransactions c b := by
  unfold update_with_block
  unfold structuralLinkOk at hlink
  rw [if_neg (by simp [hidx]), if_neg (by simp [hdif])]
  cases hl : c.blocks.getLast? with
  | none =>
    simp only [hl, decide_eq_true_eq] at hlink
    show (if b.prev_block_hash ≠ List.replicate 32 0 then
        (Except.error BlockValidationErr.InvalidGenesisBlockFormat, c)
      else applyTransactions c b) = applyTransactions c b
    rw [if_neg (by simp [hlink])]
  | some prev =>
    simp only [hl, Bool.decide_and, Bool.and_eq_true, decide_eq_true_eq] at hlink
    show (if b.timestamp ≤ prev.timestamp then
        (Except.error BlockValidationErr.AchronologicalTimestamp, c)
      else if b.prev_block_hash ≠ prev.hash then
        (Except.error BlockValidationErr.InvalidHash, c)
      else applyTransactions c b) = applyTransactions c b
    obtain ⟨h1, h2⟩ := hlink
    rw [if_neg (by omega), if_neg (by simp [h2])]

theorem processTransactions_error_cases (u : Finset Hash)
    (ts : List Transaction) (bs bc : Finset Hash) (f : Nat)
    (e : BlockValidationErr)
    (h : processTransactions u ts bs bc f = .error e) :
    e = .InvalidInput ∨ e = .InsufficientInputValue := by
  induction ts generalizing bs bc f with
  | nil => simp [processTransactions] at h
  | cons t ts ih =>
    unfold processTransactions at h
    split at h
    · left; cases h; rfl
    · split at h
      · right; cases h; rfl
      · exact ih _ _ _ h

theorem applyTransactions_ne_mpv (c : Blockchain) (b : Block) :
    (applyTransactions c b).1 ≠ .error .MismatchedPreviousHash := by
  unfold applyTransactions
  split
  · simp
  · split
    · simp
    · split
      case _ e he =>
        intro hcontra
        simp only at hcontra
        cases hcontra
        rcases processTransactions_error_cases _ _ _ _ _ _ he with h | h <;>
          cases h
      · split
        · simp
        · simp

/-! ### C1 -/

/-- C1: if `update_with_block` returns any error, the resulting ledger state
(`blocks` and `unspent_outputs` alike) is exactly the pre-call state: no
partial commit. -/
theorem c1_error_no_mutation (cd : Hash → Nat → Bool) (hf : Block → Hash)
    (c : Blockchain) (b : Block) (e : BlockValidationErr)
    (h : (update_with_block cd hf c b).1 = .error e) :
    (update_with_block cd hf c b).2 = c := by
  rcases update_state_or_ok cd hf c b with h2 | h2
  · exact h2
  · rw [h2] at h; cases h

/-- Witness for C1: a rejected append (mismatched index) leaves the state
unchanged. -/
theorem c1_witness :
    (update_with_block (fun _ _ => true) (fun _ => []) (Blockchain.new 7)
      { index := 3, timestamp := 0, prev_block_hash := [],
        hash := [], transactions := [] }).2 = Blockchain.new 7 :=
  c1_error_no_mutation (fun _ _ => true) (fun _ => []) (Blockchain.new 7)
    { index := 3, timestamp := 0, prev_block_hash := [],
      hash := [], transactions := [] } .MismatchedIndex (by decide)

/-! ### C3 -/

/-- A throwaway block used to build the length-`2 ^ 32` chain of the C3
counterexample. -/
def padBlock : Block :=
  { index := 0, timestamp := 0, prev_block_hash := [], hash := [],
    transactions := [] }

theorem update_index_passes_difficulty_fails (cd : Hash → Nat → Bool)
    (hf : Block → Hash) (c : Blockchain) (b : Block)
    (h : b.index = c.blocks.length % 2 ^ 32)
    (hd : cd (hf b) c.difficulty = false) :
    (update_with_block cd hf c b).1 = .error .InvalidHash := by
  unfold update_with_block
  rw [if_neg (by simp [h]), if_pos (by simp [hd])]

/-- A ledger whose chain already holds `2 ^ 32` (pad) blocks, for the C3
counterexample. -/
def hugeChain : Blockchain :=
  { blocks := List.replicate (2 ^ 32) padBlock,
    unspent_outputs := ∅, difficulty := 0 }

/-- Counterexample to C3 as stated: on a chain of length `2 ^ 32`, a
candidate with index `0 ≠ 2 ^ 32` is NOT rejected with `MismatchedIndex`
(the `as u32` cast wraps the length to `0`); here it reaches the
difficulty check and fails with `InvalidHash` instead. -/
theorem c3_counterexample :
    padBlock.index ≠ hugeChain.blocks.length ∧
    (update_with_block (fun _ _ => false) (fun _ => [])
        hugeChain padBlock).1 ≠ .error .MismatchedIndex := by
  have hb : hugeChain.blocks = List.replicate (2 ^ 32) padBlock := rfl
  constructor
  · intro h
    rw [hb, List.length_replicate] at h
    exact absurd h (by decide)
  · have hidx : padBlock.index = hugeChain.blocks.length % 2 ^ 32 := by
      rw [hb, List.length_replicate, Nat.mod_self]
      rfl
    have heq := update_index_passes_difficulty_fails (fun _ _ => false)
      (fun _ => []) hugeChain padBlock hidx rfl
    rw [heq]
    decide

/-- C3 (amended): for every ledger whose chain is shorter than `2 ^ 32`
blocks (the `u32` index range) and every candidate block whose index
differs from the current chain length, `update_with_block` returns
`MismatchedIndex`, regardless of all other fields of the block. -/
theorem c3_mismatched_index (cd : Hash → Nat → Bool) (hf : Block → Hash)
    (c : Blockchain) (b : Block)
    (hlen : c.blocks.length < 2 ^ 32)
    (hidx : b.index ≠ c.blocks.length) :
    (update_with_block cd hf c b).1 = .error .MismatchedIndex := by
  unfold update_with_block
  rw [if_pos]
  rw [Nat.mod_eq_of_lt hlen]
  exact hidx

/-- Witness for C3 (amended). -/
theorem c3_witness :
    (update_with_block (fun _ _ => true) (fun _ => []) (Blockchain.new 0)
      { index := 5, timestamp := 0, prev_block_hash := [],
        hash := [], transactions := [] }).1 = .error .MismatchedIndex :=
  c3_mismatched_index (fun _ _ => true) (fun _ => []) (Blockchain.new 0)
    { index := 5, timestamp := 0, prev_block_hash := [],
      hash := [], transactions := [] } (by decide) (by decide)

/-! ### C7 -/

/-- C7: `update_with_block` never returns `MismatchedPreviousHash`; and a
non-genesis candidate whose `prev_block_hash` differs from the previous
block's hash (index, difficulty and timestamp checks passing) is rejected
with `InvalidHash`. -/
theorem c7_mismatched_previous_hash (cd : Hash → Nat → Bool)
    (hf : Block → Hash) (c : Blockchain) (b : Block) (prev : Block) :
    (update_with_block cd hf c b).1 ≠ .error .MismatchedPreviousHash ∧
    (c.blocks.getLast? = some prev →
      b.index = c.blocks.length % 2 ^ 32 →
      cd (hf b) c.difficulty = true →
      prev.timestamp < b.timestamp →
      b.prev_block_hash ≠ prev.hash →
      (update_with_block cd hf c b).1 = .error .InvalidHash) := by
  constructor
  · unfold update_with_block
    split
    · simp
    · split
      · simp
      · split
        · split
          · simp
          · split
            · simp
            · exact applyTransactions_ne_mpv c b
        · split
          · simp
          · exact applyTransactions_ne_mpv c b
  · intro hl hidx hdif hts hph
    unfold update_with_block
    rw [if_neg (by simp [hidx]), if_neg (by simp [hdif]), hl]
    show (if b.timestamp ≤ prev.timestamp then
        (Except.error BlockValidationErr.AchronologicalTimestamp, c)
      else if b.prev_block_hash ≠ prev.hash then
        (Except.error BlockValidationErr.InvalidHash, c)
      else applyTransactions c b).1 =
      Except.error BlockValidationErr.InvalidHash
    rw [if_neg (by omega), if_pos hph]

theorem applyTransactions_cons (c : Blockchain) (b : Block)
    (coinbase : Transaction) (txs : List Transaction)
    (htx : b.transactions = coinbase :: txs)
    (hcoin : coinbase.is_coinbase = true) :
    applyTransactions c b =
      (match processTransactions c.unspent_outputs txs ∅ ∅ 0 with
       | .error e => (.error e, c)
       | .ok (block_spent, block_created, total_fee) =>
         if coinbase.output_value < total_fee then
           (.error .InvalidCoinbaseTransaction, c)
         else
           (.ok (), { c with
             unspent_outputs :=
               (c.unspent_outputs \ block_spent) ∪
                 (block_created ∪ coinbase.output_hashes),
             blocks := c.blocks ++ [b] })) := by
  unfold applyTransactions
  rw [htx]
  show (if ¬ coinbase.is_coinbase = true then
      ((.error .InvalidCoinbaseTransaction, c) :
        Except BlockValidationErr Unit × Blockchain)
    else
      match processTransactions c.unspent_outputs txs ∅ ∅ 0 with
      | .error e => (.error e, c)
      | .ok (block_spent, block_created, total_fee) =>
        if coinbase.output_value < total_fee then
          (.error .InvalidCoinbaseTransaction, c)
        else
          (.ok (), { c with
            unspent_outputs :=
              (c.unspent_outputs \ block_spent) ∪
                (block_created ∪ coinbase.output_hashes),
            blocks := c.blocks ++ [b] })) = _
  rw [if_neg (by simp [hcoin])]

theorem applyTransactions_loop_error (c : Blockchain) (b : Block)
    (coinbase : Transaction) (txs : List Transaction)
    (e : BlockValidationErr)
    (htx : b.transactions = coinbase :: txs)
    (hcoin : coinbase.is_coinbase = true)
    (hp : processTransactions c.unspent_outputs txs ∅ ∅ 0 = .error e) :
    applyTransactions c b = (.error e, c) := by
  rw [applyTransactions_cons c b coinbase txs htx hcoin, hp]

theorem applyTransactions_loop_ok (c : Blockchain) (b : Block)
    (coinbase : Transaction) (txs : List Transaction)
    (bs bc : Finset Hash) (fee : Nat)
    (htx : b.transactions = coinbase :: txs)
    (hcoin : coinbase.is_coinbase = true)
    (hp : processTransactions c.unspent_outputs txs ∅ ∅ 0 =
      .ok (bs, bc, fee)) :
    applyTransactions c b =
      (if coinbase.output_value < fee then
        (.error .InvalidCoinbaseTransaction, c)
      else
        (.ok (), { c with
          unspent_outputs :=
            (c.unspent_outputs \ bs) ∪ (bc ∪ coinbase.output_hashes),
          blocks := c.blocks ++ [b] })) := by
  rw [applyTransactions_cons c b coinbase txs htx hcoin, hp]

theorem processTransactions_values_ok (u : Finset Hash)
    (ts : List Transaction) (bs bc : Finset Hash) (f : Nat)
    (hvals : ∀ t ∈ ts, t.output_value ≤ t.input_value) :
    processTransactions u ts bs bc f = .error .InvalidInput ∨
      ∃ r, processTransactions u ts bs bc f = .ok r := by
  induction ts generalizing bs bc f with
  | nil => exact Or.inr ⟨_, rfl⟩
  | cons t ts ih =>
    unfold processTransactions
    split
    · exact Or.inl rfl
    · split
      · rename_i hval
        exact absurd (hvals t (List.mem_cons_self t ts)) (by omega)
      · exact ih _ _ _ fun t' ht' => hvals t' (List.mem_cons_of_mem t ht')

theorem processTransactions_ok_disjoint (u : Finset Hash)
    (ts : List Transaction) (bs bc : Finset Hash) (f : Nat)
    (r : Finset Hash × Finset Hash × Nat)
    (h : processTransactions u ts bs bc f = .ok r) :
    (∀ t ∈ ts, Disjoint t.input_hashes bs) ∧
      List.Pairwise
        (fun a b => Disjoint a.input_hashes b.input_hashes) ts := by
  induction ts generalizing bs bc f with
  | nil => exact ⟨by simp, List.Pairwise.nil⟩
  | cons t ts ih =>
    unfold processTransactions at h
    split at h
    · cases h
    · split at h
      · cases h
      · rename_i hin hval
        push_neg at hin
        obtain ⟨hsub, hint⟩ := hin
        obtain ⟨h1, h2⟩ := ih _ _ _ h
        refine ⟨?_, ?_⟩
        · intro t' ht'
          rcases List.mem_cons.mp ht' with rfl | ht'
          · exact Finset.disjoint_iff_inter_eq_empty.mpr hint
          · exact (h1 t' ht').mono_right Finset.subset_union_left
        · exact List.Pairwise.cons
            (fun t' ht' =>
              (((h1 t' ht').mono_right Finset.subset_union_right)).symm)
            h2

theorem processTransactions_ok_fee (u : Finset Hash)
    (ts : List Transaction) (bs bc : Finset Hash) (f : Nat)
    (bs' bc' : Finset Hash) (f' : Nat)
    (h : processTransactions u ts bs bc f = .ok (bs', bc', f')) :
    f' = ts.foldl
      (fun g t => (g + (t.input_value - t.output_value)) % 2 ^ 64) f := by
  induction ts generalizing bs bc f with
  | nil =>
    unfold processTransactions at h
    cases h
    rfl
  | cons t ts ih =>
    unfold processTransactions at h
    split at h
    · cases h
    · split at h
      · cases h
      · rw [List.foldl_cons]
        exact ih _ _ _ h

/-- The running `total_fee` accumulator over the non-coinbase
transactions: `u64` wrapping sum of `input_value - output_value`. -/
def totalFee (ts : List Transaction) : Nat :=
  ts.foldl (fun g t => (g + (t.input_value - t.output_value)) % 2 ^ 64) 0

/-! ### C5 -/

/-- C5: when the structural checks pass, the first transaction is a
coinbase, and the per-transaction loop succeeds, the call returns
`InvalidCoinbaseTransaction` exactly when the coinbase output value is
less than the accumulated fee total, and is accepted whenever the
coinbase output value covers the fee total. -/
theorem c5_coinbase_fee_coverage (cd : Hash → Nat → Bool)
    (hf : Block → Hash) (c : Blockchain) (b : Block)
    (coinbase : Transaction) (txs : List Transaction)
    (hidx : b.index = c.blocks.length % 2 ^ 32)
    (hdif : cd (hf b) c.difficulty = true)
    (hlink : structuralLinkOk c b = true)
    (htx : b.transactions = coinbase :: txs)
    (hcoin : coinbase.is_coinbase = true)
    (hproc : ∃ r, processTransactions c.unspent_outputs txs ∅ ∅ 0 =
      .ok r) :
    ((update_with_block cd hf c b).1 =
        .error .InvalidCoinbaseTransaction ↔
      coinbase.output_value < totalFee txs) ∧
    (totalFee txs ≤ coinbase.output_value →
      (update_with_block cd hf c b).1 = .ok ()) := by
  obtain ⟨⟨bs, bc, fee⟩, hp⟩ := hproc
  have hfee : fee = totalFee txs :=
    processTransactions_ok_fee c.unspent_outputs txs ∅ ∅ 0 bs bc fee hp
  rw [update_structural cd hf c b hidx hdif hlink,
    applyTransactions_loop_ok c b coinbase txs bs bc fee htx hcoin hp,
    hfee]
  constructor
  · constructor
    · intro herr
      by_contra hlt
      rw [if_neg hlt] at herr
      exact absurd herr (by simp)
    · intro hlt
      rw [if_pos hlt]
  · intro hge
    rw [if_neg (by omega)]

/-- Witness for C5: a genesis block whose only non-coinbase transaction
pays fee 10 and whose coinbase pays out 10 is accepted; the
`InvalidCoinbaseTransaction` characterization evaluates to `10 < 10`,
false. -/
theorem c5_witness :
    ¬ ((update_with_block (fun _ _ => true) (fun _ => [])
        { blocks := [], unspent_outputs := {[1]}, difficulty := 0 }
        { index := 0, timestamp := 0,
          prev_block_hash := List.replicate 32 0, hash := [],
          transactions :=
            [{ is_coinbase := true, input_hashes := ∅,
               output_hashes := {[7]}, input_value := 0,
               output_value := 10 },
             { is_coinbase := false, input_hashes := {[1]},
               output_hashes := {[2]}, input_value := 50,
               output_value := 40 }] }).1 =
      .error .InvalidCoinbaseTransaction) ∧
    (update_with_block (fun _ _ => true) (fun _ => [])
        { blocks := [], unspent_outputs := {[1]}, difficulty := 0 }
        { index := 0, timestamp := 0,
          prev_block_hash := List.replicate 32 0, hash := [],
          transactions :=
            [{ is_coinbase := true, input_hashes := ∅,
               output_hashes := {[7]}, input_value := 0,
               output_value := 10 },
             { is_coinbase := false, input_hashes := {[1]},
               output_hashes := {[2]}, input_value := 50,
               output_value := 40 }] }).1 = .ok () :=
  ⟨fun herr => absurd
    ((c5_coinbase_fee_coverage (fun _ _ => true) (fun _ => [])
        { blocks := [], unspent_outputs := {[1]}, difficulty := 0 }
        { index := 0, timestamp := 0,
          prev_block_hash := List.replicate 32 0, hash := [],
          transactions :=
            [{ is_coinbase := true, input_hashes := ∅,
               output_hashes := {[7]}, input_value := 0,
               output_value := 10 },
             { is_coinbase := false, input_hashes := {[1]},
               output_hashes := {[2]}, input_value := 50,
               output_value := 40 }] }
        { is_coinbase := true, input_hashes := ∅, output_hashes := {[7]},
          input_value := 0, output_value := 10 }
        [{ is_coinbase := false, input_hashes := {[1]},
           output_hashes := {[2]}, input_value := 50,
           output_value := 40 }]
        rfl rfl (by decide) rfl rfl ⟨({[1]}, {[2]}, 10), by decide⟩).1.mp herr)
    (by decide),
   (c5_coinbase_fee_coverage (fun _ _ => true) (fun _ => [])
      { blocks := [], unspent_outputs := {[1]}, difficulty := 0 }
      { index := 0, timestamp := 0,
        prev_block_hash := List.replicate 32 0, hash := [],
        transactions :=
          [{ is_coinbase := true, input_hashes := ∅,
             output_hashes := {[7]}, input_value := 0,
             output_value := 10 },
           { is_coinbase := false, input_hashes := {[1]},
             output_hashes := {[2]}, input_value := 50,
             output_value := 40 }] }
      { is_coinbase := true, input_hashes := ∅, output_hashes := {[7]},
        input_value := 0, output_value := 10 }
      [{ is_coinbase := false, input_hashes := {[1]},
         output_hashes := {[2]}, input_value := 50,
         output_value := 40 }]
      rfl rfl (by decide) rfl rfl ⟨({[1]}, {[2]}, 10), by decide⟩).2 (by decide)⟩

/-! ### C4 -/

/-- Counterexample to C4 as stated: two blocks that pass the index,
difficulty and linkage checks and contain two non-coinbase transactions
spending the same unspent output, yet are rejected with an error other
than `InvalidInput`: in the first the leading transaction is not a
coinbase (`InvalidCoinbaseTransaction`), in the second an earlier
transaction fails the value check (`InsufficientInputValue`) before the
duplicate spend is reached. -/
theorem c4_counterexample :
    ((update_with_block (fun _ _ => true) (fun _ => [])
        { blocks := [], unspent_outputs := {[5]}, difficulty := 0 }
        { index := 0, timestamp := 0,
          prev_block_hash := List.replicate 32 0, hash := [],
          transactions :=
            [{ is_coinbase := false, input_hashes := {[5]},
               output_hashes := ∅, input_value := 5, output_value := 5 },
             { is_coinbase := false, input_hashes := {[5]},
               output_hashes := ∅, input_value := 5,
               output_value := 5 }] }).1 =
      .error .InvalidCoinbaseTransaction) ∧
    ((update_with_block (fun _ _ => true) (fun _ => [])
        { blocks := [], unspent_outputs := {[1], [2]}, difficulty := 0 }
        { index := 0, timestamp := 0,
          prev_block_hash := List.replicate 32 0, hash := [],
          transactions :=
            [{ is_coinbase := true, input_hashes := ∅,
               output_hashes := ∅, input_value := 0, output_value := 0 },
             { is_coinbase := false, input_hashes := {[1]},
               output_hashes := ∅, input_value := 1, output_value := 2 },
             { is_coinbase := false, input_hashes := {[2]},
               output_hashes := ∅, input_value := 1, output_value := 1 },
             { is_coinbase := false, input_hashes := {[2]},
               output_hashes := ∅, input_value := 1,
               output_value := 1 }] }).1 =
      .error .InsufficientInputValue) := by
  constructor
  · decide
  · decide

/-- C4 (amended): if additionally the first transaction is a coinbase and
every non-coinbase transaction in the block satisfies
`output_value ≤ input_value`, a block containing two non-coinbase
transactions whose input sets share an identifier is rejected with
`InvalidInput`. -/
theorem c4_intra_block_double_spend (cd : Hash → Nat → Bool)
    (hf : Block → Hash) (c : Blockchain) (b : Block)
    (coinbase : Transaction) (txs : List Transaction) (i j : Nat)
    (hidx : b.index = c.blocks.length % 2 ^ 32)
    (hdif : cd (hf b) c.difficulty = true)
    (hlink : structuralLinkOk c b = true)
    (htx : b.transactions = coinbase :: txs)
    (hcoin : coinbase.is_coinbase = true)
    (hvals : ∀ t ∈ txs, t.output_value ≤ t.input_value)
    (hij : i < j) (hj : j < txs.length)
    (hshare : ¬ Disjoint (txs.get ⟨i, hij.trans hj⟩).input_hashes
        (txs.get ⟨j, hj⟩).input_hashes) :
    (update_with_block cd hf c b).1 = .error .InvalidInput := by
  rw [update_structural cd hf c b hidx hdif hlink]
  rcases processTransactions_values_ok c.unspent_outputs txs ∅ ∅ 0 hvals
    with herr | ⟨r, hok⟩
  · rw [applyTransactions_loop_error c b coinbase txs .InvalidInput htx
      hcoin herr]
  · exfalso
    have hpw :=
      (processTransactions_ok_disjoint c.unspent_outputs txs ∅ ∅ 0 r
        hok).2
    exact hshare
      (List.pairwise_iff_get.mp hpw ⟨i, hij.trans hj⟩ ⟨j, hj⟩ hij)

/-- Witness for C4 (amended): a genesis block whose two non-coinbase
transactions both spend the unspent output `[2]` is rejected with
`InvalidInput`. -/
theorem c4_witness :
    (update_with_block (fun _ _ => true) (fun _ => [])
        { blocks := [], unspent_outputs := {[2]}, difficulty := 0 }
        { index := 0, timestamp := 0,
          prev_block_hash := List.replicate 32 0, hash := [],
          transactions :=
            [{ is_coinbase := true, input_hashes := ∅,
               output_hashes := ∅, input_value := 0, output_value := 0 },
             { is_coinbase := false, input_hashes := {[2]},
               output_hashes := ∅, input_value := 1, output_value := 1 },
             { is_coinbase := false, input_hashes := {[2]},
               output_hashes := ∅, input_value := 1,
               output_value := 1 }] }).1 = .error .InvalidInput :=
  c4_intra_block_double_spend (fun _ _ => true) (fun _ => [])
    { blocks := [], unspent_outputs := {[2]}, difficulty := 0 }
    { index := 0, timestamp := 0,
      prev_block_hash := List.replicate 32 0, hash := [],
      transactions :=
        [{ is_coinbase := true, input_hashes := ∅,
           output_hashes := ∅, input_value := 0, output_value := 0 },
         { is_coinbase := false, input_hashes := {[2]},
           output_hashes := ∅, input_value := 1, output_value := 1 },
         { is_coinbase := false, input_hashes := {[2]},
           output_hashes := ∅, input_value := 1, output_value := 1 }] }
    { is_coinbase := true, input_hashes := ∅, output_hashes := ∅,
      input_value := 0, output_value := 0 }
    [{ is_coinbase := false, input_hashes := {[2]},
       output_hashes := ∅, input_value := 1, output_value := 1 },
     { is_coinbase := false, input_hashes := {[2]},
       output_hashes := ∅, input_value := 1, output_value := 1 }]
    0 1 rfl rfl (by decide) rfl rfl (by decide) (by decide) (by decide)
    (by decide)

/-! ### C6 -/

theorem update_on_empty (cd : Hash → Nat → Bool) (hf : Block → Hash)
    (u : Finset Hash) (d : Nat) (b : Block) :
    update_with_block cd hf ⟨[], u, d⟩ b =
      if b.index ≠ 0 then (.error .MismatchedIndex, ⟨[], u, d⟩)
      else if ¬ cd (hf b) d then (.error .InvalidHash, ⟨[], u, d⟩)
      else if b.prev_block_hash ≠ List.replicate 32 0 then
        (.error .InvalidGenesisBlockFormat, ⟨[], u, d⟩)
      else applyTransactions ⟨[], u, d⟩ b := rfl

/-- C6: on an empty ledger, a candidate is accepted only if its
`prev_block_hash` is the all-zero 32-byte sentinel; with the index and
difficulty checks passing, any other `prev_block_hash` yields
`InvalidGenesisBlockFormat`. -/
theorem c6_genesis_sentinel (cd : Hash → Nat → Bool) (hf : Block → Hash)
    (c : Blockchain) (b : Block) (hempty : c.blocks = []) :
    ((update_with_block cd hf c b).1 = .ok () →
      b.prev_block_hash = List.replicate 32 0) ∧
    (b.index = 0 → cd (hf b) c.difficulty = true →
      b.prev_block_hash ≠ List.replicate 32 0 →
      (update_with_block cd hf c b).1 =
        .error .InvalidGenesisBlockFormat) := by
  obtain ⟨bs, u, d⟩ := c
  simp only at hempty
  subst hempty
  constructor
  · intro hok
    rw [update_on_empty] at hok
    split at hok
    · exact absurd hok (by simp)
    · split at hok
      · exact absurd hok (by simp)
      · split at hok
        · exact absurd hok (by simp)
        · next hne => exact not_not.mp hne
  · intro hidx hdif hne
    rw [update_on_empty, if_neg (by simp [hidx]), if_neg (by simp [hdif]),
      if_pos hne]

/-- Witness for C6: on the fresh ledger, a genesis candidate whose
`prev_block_hash` is `[3]` is rejected with `InvalidGenesisBlockFormat`. -/
theorem c6_witness :
    (update_with_block (fun _ _ => true) (fun _ => []) (Blockchain.new 0)
        { index := 0, timestamp := 0, prev_block_hash := [3],
          hash := [], transactions := [] }).1 =
      .error .InvalidGenesisBlockFormat :=
  (c6_genesis_sentinel (fun _ _ => true) (fun _ => []) (Blockchain.new 0)
      { index := 0, timestamp := 0, prev_block_hash := [3],
        hash := [], transactions := [] } rfl).2
    rfl rfl (by decide)

/-! ### C8 -/

/-- C8: a candidate with an empty transaction list that passes the index,
difficulty and linkage/genesis checks is accepted; the call leaves
`unspent_outputs` unchanged and appends exactly that block. -/
theorem c8_empty_transaction_list (cd : Hash → Nat → Bool)
    (hf : Block → Hash) (c : Blockchain) (b : Block)
    (htx : b.transactions = [])
    (hidx : b.index = c.blocks.length % 2 ^ 32)
    (hdif : cd (hf b) c.difficulty = true)
    (hlink : structuralLinkOk c b = true) :
    (update_with_block cd hf c b).1 = .ok () ∧
    (update_with_block cd hf c b).2.unspent_outputs = c.unspent_outputs ∧
    (update_with_block cd hf c b).2.blocks = c.blocks ++ [b] := by
  rw [update_structural cd hf c b hidx hdif hlink]
  unfold applyTransactions
  rw [htx]
  exact ⟨rfl, rfl, rfl⟩

/-- Witness for C8: an empty-transaction genesis block is accepted and
leaves the unspent set unchanged. -/
theorem c8_witness :
    (update_with_block (fun _ _ => true) (fun _ => []) (Blockchain.new 2)
        { index := 0, timestamp := 0,
          prev_block_hash := List.replicate 32 0,
          hash := [], transactions := [] }).1 = .ok () ∧
    (update_with_block (fun _ _ => true) (fun _ => []) (Blockchain.new 2)
        { index := 0, timestamp := 0,
          prev_block_hash := List.replicate 32 0,
          hash := [], transactions := [] }).2.unspent_outputs =
      (Blockchain.new 2).unspent_outputs ∧
    (update_with_block (fun _ _ => true) (fun _ => []) (Blockchain.new 2)
        { index := 0, timestamp := 0,
          prev_block_hash := List.replicate 32 0,
          hash := [], transactions := [] }).2.blocks =
      (Blockchain.new 2).blocks ++
        [{ index := 0, timestamp := 0,
           prev_block_hash := List.replicate 32 0,
           hash := [], transactions := [] }] :=
  c8_empty_transaction_list (fun _ _ => true) (fun _ => [])
    (Blockchain.new 2)
    { index := 0, timestamp := 0, prev_block_hash := List.replicate 32 0,
      hash := [], transactions := [] }
    rfl rfl rfl (by decide)

/-! ### C9 -/

/-- `u64` subtraction with an explicit underflow signal: `none` exactly
when the subtraction would underflow. -/
def checkedSub (a b : Nat) : Option Nat :=
  if b ≤ a then some (a - b) else none

/-- The transaction loop with the fee subtraction replaced by
`checkedSub`: returns `none` iff some evaluated `input_value -
output_value` would underflow. -/
def processTransactionsChecked (unspent : Finset Hash) :
    List Transaction → Finset Hash → Finset Hash → Nat →
    Option (Except BlockValidationErr (Finset Hash × Finset Hash × Nat))
  | [], block_spent, block_created, total_fee =>
    some (.ok (block_spent, block_created, total_fee))
  | t :: ts, block_spent, block_created, total_fee =>
    if ¬ (t.input_hashes \ unspent = ∅) ∨ ¬ (t.input_hashes ∩ block_spent = ∅) then
      some (.error .InvalidInput)
    else if t.output_value > t.input_value then
      some (.error .InsufficientInputValue)
    else
      match checkedSub t.input_value t.output_value with
      | none => none
      | some fee =>
        processTransactionsChecked unspent ts (block_spent ∪ t.input_hashes)
          (block_created ∪ t.output_hashes) ((total_fee + fee) % 2 ^ 64)

/-- C9: the fee subtraction is evaluated only under the guard
`output_value ≤ input_value`, so it never underflows: the checked-
subtraction loop never returns `none` and agrees with the actual loop on
every input. -/
theorem c9_fee_subtraction_no_underflow (u : Finset Hash)
    (ts : List Transaction) (bs bc : Finset Hash) (f : Nat) :
    processTransactionsChecked u ts bs bc f =
      some (processTransactions u ts bs bc f) := by
  induction ts generalizing bs bc f with
  | nil => rfl
  | cons t ts ih =>
    unfold processTransactions processTransactionsChecked
    split
    · rfl
    · split
      · rfl
      · rename_i hval
        have hc : checkedSub t.input_value t.output_value =
            some (t.input_value - t.output_value) := by
          unfold checkedSub
          rw [if_pos (by omega)]
        rw [hc]
        exact ih _ _ _

/-! ### C10 -/

theorem processTransactions_all_empty_inputs_no_invalid_input
    (u : Finset Hash) (ts : List Transaction) (bs bc : Finset Hash)
    (f : Nat) (h : ∀ t ∈ ts, t.input_hashes = ∅) :
    processTransactions u ts bs bc f ≠ .error .InvalidInput := by
  induction ts generalizing bs bc f with
  | nil => simp [processTransactions]
  | cons t ts ih =>
    unfold processTransactions
    rw [if_neg]
    · split
      · simp
      · exact ih _ _ _ fun t' ht' => h t' (List.mem_cons_of_mem t ht')
    · rw [h t (List.mem_cons_self t ts)]
      simp

/-- C10: a non-coinbase transaction with an empty `input_hashes` set never
triggers `InvalidInput`: its loop step skips straight to the value/fee
checks, using the self-reported `input_value` unvalidated; and a call
whose non-coinbase transactions all have empty inputs can never return
`InvalidInput`. -/
theorem c10_empty_inputs_no_invalid_input (cd : Hash → Nat → Bool)
    (hf : Block → Hash) (c : Blockchain) (b : Block) (u : Finset Hash)
    (t : Transaction) (ts : List Transaction) (bs bc : Finset Hash)
    (f : Nat) (h : t.input_hashes = ∅) :
    processTransactions u (t :: ts) bs bc f =
      (if t.output_value > t.input_value then .error .InsufficientInputValue
       else processTransactions u ts bs (bc ∪ t.output_hashes)
         ((f + (t.input_value - t.output_value)) % 2 ^ 64)) ∧
    ((∀ t' ∈ b.transactions.drop 1, t'.input_hashes = ∅) →
      (update_with_block cd hf c b).1 ≠ .error .InvalidInput) := by
  constructor
  · simp only [processTransactions]
    rw [h]
    rw [if_neg (by simp)]
    rw [Finset.union_empty]
  · intro hall
    unfold update_with_block
    split
    · simp
    · split
      · simp
      · have happ : (applyTransactions c b).1 ≠ .error .InvalidInput := by
          unfold applyTransactions
          split
          · simp
          · rename_i coinbase transactions heq
            split
            · simp
            · split
              · rename_i e hproc
                intro hcontra
                simp only at hcontra
                cases hcontra
                exact processTransactions_all_empty_inputs_no_invalid_input
                  c.unspent_outputs transactions ∅ ∅ 0
                  (by intro t' ht'; exact hall t' (by rw [heq]; exact ht'))
                  hproc
              · split
                · simp
                · simp
        split
        · split
          · simp
          · split
            · simp
            · exact happ
        · split
          · simp
          · exact happ

/-- Witness for C10: a transaction reporting `input_value = 42` with no
inputs, against an empty unspent set, passes the membership check and is
charged a fee of 42. -/
theorem c10_witness :
    processTransactions ∅
        [{ is_coinbase := false, input_hashes := ∅,
           output_hashes := {[9]}, input_value := 42, output_value := 0 }]
        ∅ ∅ 0 =
      (if (0 : Nat) > 42 then .error .InsufficientInputValue
       else processTransactions ∅ [] ∅ (∅ ∪ {[9]}) ((0 + (42 - 0)) % 2 ^ 64)) ∧
    (update_with_block (fun _ _ => true) (fun _ => []) (Blockchain.new 0)
        { index := 0, timestamp := 0,
          prev_block_hash := List.replicate 32 0, hash := [],
          transactions :=
            [{ is_coinbase := true, input_hashes := ∅,
               output_hashes := {[1]}, input_value := 0,
               output_value := 50 },
             { is_coinbase := false, input_hashes := ∅,
               output_hashes := {[9]}, input_value := 42,
               output_value := 0 }] }).1 ≠ .error .InvalidInput :=
  ⟨(c10_empty_inputs_no_invalid_input (fun _ _ => true) (fun _ => [])
      (Blockchain.new 0)
      { index := 0, timestamp := 0,
        prev_block_hash := List.replicate 32 0, hash := [],
        transactions :=
          [{ is_coinbase := true, input_hashes := ∅,
             output_hashes := {[1]}, input_value := 0,
             output_value := 50 },
           { is_coinbase := false, input_hashes := ∅,
             output_hashes := {[9]}, input_value := 42,
             output_value := 0 }] } ∅
      { is_coinbase := false, input_hashes := ∅, output_hashes := {[9]},
        input_value := 42, output_value := 0 }
      [] ∅ ∅ 0 rfl).1,
   (c10_empty_inputs_no_invalid_input (fun _ _ => true) (fun _ => [])
      (Blockchain.new 0)
      { index := 0, timestamp := 0,
        prev_block_hash := List.replicate 32 0, hash := [],
        transactions :=
          [{ is_coinbase := true, input_hashes := ∅,
             output_hashes := {[1]}, input_value := 0,
             output_value := 50 },
           { is_coinbase := false, input_hashes := ∅,
             output_hashes := {[9]}, input_value := 42,
             output_value := 0 }] } ∅
      { is_coinbase := false, input_hashes := ∅, output_hashes := {[9]},
        input_value := 42, output_value := 0 }
      [] ∅ ∅ 0 rfl).2 (by decide)⟩

/-- Witness for C7: a block 1 whose `prev_block_hash` does not match the
genesis block's hash is rejected with `InvalidHash`. -/
theorem c7_witness :
    (update_with_block (fun _ _ => true) (fun _ => [])
        { blocks := [{ index := 0, timestamp := 0,
                       prev_block_hash := List.replicate 32 0,
                       hash := [1], transactions := [] }],
          unspent_outputs := ∅, difficulty := 0 }
        { index := 1, timestamp := 1, prev_block_hash := [2],
          hash := [], transactions := [] }).1 = .error .InvalidHash :=
  (c7_mismatched_previous_hash (fun _ _ => true) (fun _ => [])
      { blocks := [{ index := 0, timestamp := 0,
                     prev_block_hash := List.replicate 32 0,
                     hash := [1], transactions := [] }],
        unspent_outputs := ∅, difficulty := 0 }
      { index := 1, timestamp := 1, prev_block_hash := [2],
        hash := [], transactions := [] }
      { index := 0, timestamp := 0,
        prev_block_hash := List.replicate 32 0,
        hash := [1], transactions := [] }).2
    (by decide) (by decide) (by decide) (by decide) (by decide)

/-! ### C2 -/

/-- Union of the `input_hashes` of a transaction list: the identifiers
the list consumes. -/
def inputsUnion : List Transaction → Finset Hash
  | [] => ∅
  | t :: ts => t.input_hashes ∪ inputsUnion ts

/-- Union of the `output_hashes` of a transaction list: the identifiers
the list creates. -/
def outputsUnion : List Transaction → Finset Hash
  | [] => ∅
  | t :: ts => t.output_hashes ∪ outputsUnion ts

/-- The output identifiers a block consumes: the inputs of its
non-coinbase (non-first) transactions. -/
def blockSpent (b : Block) : Finset Hash :=
  match b.transactions with
  | [] => ∅
  | _ :: ts => inputsUnion ts

/-- The output identifiers a block creates: the outputs of its
non-coinbase transactions together with the coinbase outputs. -/
def blockCreated (b : Block) : Finset Hash :=
  match b.transactions with
  | [] => ∅
  | coinbase :: ts => outputsUnion ts ∪ coinbase.output_hashes

/-- All output identifiers created by a chain of blocks. -/
def chainCreated : List Block → Finset Hash
  | [] => ∅
  | b :: rest => blockCreated b ∪ chainCreated rest

/-- All output identifiers consumed by a chain of blocks. -/
def chainSpent : List Block → Finset Hash
  | [] => ∅
  | b :: rest => blockSpent b ∪ chainSpent rest

theorem processTransactions_ok_sets (u : Finset Hash)
    (ts : List Transaction) (bs bc : Finset Hash) (f : Nat)
    (bs' bc' : Finset Hash) (f' : Nat)
    (h : processTransactions u ts bs bc f = .ok (bs', bc', f')) :
    bs' = bs ∪ inputsUnion ts ∧ bc' = bc ∪ outputsUnion ts := by
  induction ts generalizing bs bc f with
  | nil =>
    unfold processTransactions at h
    cases h
    exact ⟨by simp [inputsUnion], by simp [outputsUnion]⟩
  | cons t ts ih =>
    unfold processTransactions at h
    split at h
    · cases h
    · split at h
      · cases h
      · obtain ⟨h1, h2⟩ := ih _ _ _ h
        constructor
        · rw [h1]
          simp only [inputsUnion]
          rw [Finset.union_assoc]
        · rw [h2]
          simp only [outputsUnion]
          rw [Finset.union_assoc]

theorem update_ok_eq_apply (cd : Hash → Nat → Bool) (hf : Block → Hash)
    (c : Blockchain) (b : Block) (c' : Blockchain)
    (h : update_with_block cd hf c b = (.ok (), c')) :
    applyTransactions c b = (.ok (), c') := by
  unfold update_with_block at h
  split at h
  · exact absurd h (by simp)
  · split at h
    · exact absurd h (by simp)
    · split at h
      · split at h
        · exact absurd h (by simp)
        · split at h
          · exact absurd h (by simp)
          · exact h
      · split at h
        · exact absurd h (by simp)
        · exact h

theorem applyTransactions_ok_state (c : Blockchain) (b : Block)
    (c' : Blockchain) (h : applyTransactions c b = (.ok (), c')) :
    c'.blocks = c.blocks ++ [b] ∧
      c'.unspent_outputs =
        (c.unspent_outputs \ blockSpent b) ∪ blockCreated b := by
  unfold applyTransactions at h
  split at h
  · rename_i heq
    simp only [Prod.mk.injEq] at h
    obtain ⟨-, h2⟩ := h
    subst h2
    refine ⟨rfl, ?_⟩
    show c.unspent_outputs = _
    simp [blockSpent, blockCreated, heq]
  · rename_i coinbase txs heq
    split at h
    · exact absurd h (by simp)
    · split at h
      · exact absurd h (by simp)
      · rename_i bs bc fee hp
        split at h
        · exact absurd h (by simp)
        · simp only [Prod.mk.injEq] at h
          obtain ⟨-, h2⟩ := h
          subst h2
          obtain ⟨hbs, hbc⟩ :=
            processTransactions_ok_sets c.unspent_outputs txs ∅ ∅ 0
              bs bc fee hp
          refine ⟨rfl, ?_⟩
          show (c.unspent_outputs \ bs) ∪ (bc ∪ coinbase.output_hashes) = _
          rw [hbs, hbc, Finset.empty_union, Finset.empty_union]
          simp only [blockSpent, blockCreated, heq]

theorem update_ok_state (cd : Hash → Nat → Bool) (hf : Block → Hash)
    (c : Blockchain) (b : Block) (c' : Blockchain)
    (h : update_with_block cd hf c b = (.ok (), c')) :
    c'.blocks = c.blocks ++ [b] ∧
      c'.unspent_outputs =
        (c.unspent_outputs \ blockSpent b) ∪ blockCreated b :=
  applyTransactions_ok_state c b c' (update_ok_eq_apply cd hf c b c' h)

theorem chainCreated_append (l : List Block) (b : Block) :
    chainCreated (l ++ [b]) = chainCreated l ∪ blockCreated b := by
  induction l with
  | nil => simp [chainCreated]
  | cons a l ih =>
    show blockCreated a ∪ chainCreated (l ++ [b]) =
      (blockCreated a ∪ chainCreated l) ∪ blockCreated b
    rw [ih, Finset.union_assoc]

theorem chainSpent_append (l : List Block) (b : Block) :
    chainSpent (l ++ [b]) = chainSpent l ∪ blockSpent b := by
  induction l with
  | nil => simp [chainSpent]
  | cons a l ih =>
    show blockSpent a ∪ chainSpent (l ++ [b]) =
      (blockSpent a ∪ chainSpent l) ∪ blockSpent b
    rw [ih, Finset.union_assoc]

theorem disjoint_chainSpent (s : Finset Hash) (l : List Block)
    (h : ∀ a ∈ l, Disjoint s (blockSpent a)) :
    Disjoint s (chainSpent l) := by
  induction l with
  | nil => simp [chainSpent]
  | cons a l ih =>
    simp only [chainSpent]
    exact Finset.disjoint_union_right.mpr
      ⟨h a (List.mem_cons_self a l),
       ih fun a' ha' => h a' (List.mem_cons_of_mem a ha')⟩

/-- Freshness of created output identifiers: no accepted block creates an
identifier that it, or any earlier block of the chain, consumes. -/
def FreshOutputs (blocks : List Block) : Prop :=
  (∀ b ∈ blocks, Disjoint (blockCreated b) (blockSpent b)) ∧
    List.Pairwise
      (fun x y => Disjoint (blockCreated y) (blockSpent x)) blocks

/-- Coinbase transaction of the C2 counterexample genesis block: creates
output `[5]`. -/
def cexCoinbase0 : Transaction :=
  { is_coinbase := true, input_hashes := ∅, output_hashes := {[5]},
    input_value := 0, output_value := 0 }

/-- Genesis block of the C2 counterexample. -/
def cexGenesis : Block :=
  { index := 0, timestamp := 0, prev_block_hash := List.replicate 32 0,
    hash := [1], transactions := [cexCoinbase0] }

/-- Ledger after accepting the counterexample genesis block. -/
def cexMid : Blockchain :=
  { blocks := [cexGenesis], unspent_outputs := {[5]}, difficulty := 0 }

/-- Second block of the C2 counterexample: its non-coinbase transaction
spends output `[5]` and re-creates the same identifier `[5]`. -/
def cexSecond : Block :=
  { index := 1, timestamp := 1, prev_block_hash := [1], hash := [2],
    transactions :=
      [{ is_coinbase := true, input_hashes := ∅, output_hashes := {[7]},
         input_value := 0, output_value := 0 },
       { is_coinbase := false, input_hashes := {[5]},
         output_hashes := {[5]}, input_value := 5, output_value := 5 }] }

/-- Ledger after accepting both counterexample blocks. -/
def cexFinal : Blockchain :=
  { blocks := [cexGenesis, cexSecond], unspent_outputs := {[5], [7]},
    difficulty := 0 }

/-- Counterexample to C2 as stated: a ledger reachable by two successful
appends whose second block re-creates the already-consumed identifier
`[5]`.  The running set contains `[5]` again, but "created minus
consumed" excludes it, so the two sets differ. -/
theorem c2_counterexample :
    Reachable (fun _ _ => true) (fun _ => []) cexFinal ∧
    cexFinal.unspent_outputs ≠
      chainCreated cexFinal.blocks \ chainSpent cexFinal.blocks := by
  constructor
  · exact Reachable.step
      (c := cexMid) (b := cexSecond)
      (Reachable.step (c := Blockchain.new 0) (b := cexGenesis)
        (Reachable.base 0) (by decide))
      (by decide)
  · decide

/-- C2 (amended): for every ledger reachable from `new(difficulty)` by
successful appends, provided every output identifier created by an
accepted block is distinct from every identifier consumed by that block
or by any earlier accepted block, `unspent_outputs` equals the set of
identifiers created by all accepted blocks minus those consumed by all
accepted blocks. -/
theorem c2_utxo_set (cd : Hash → Nat → Bool) (hf : Block → Hash)
    (c : Blockchain) (hr : Reachable cd hf c)
    (hfresh : FreshOutputs c.blocks) :
    c.unspent_outputs = chainCreated c.blocks \ chainSpent c.blocks := by
  revert hfresh
  induction hr with
  | base d =>
    intro _
    simp [Blockchain.new, chainCreated, chainSpent]
  | @step c₀ c' b hrc hupd ih =>
    intro hfresh
    obtain ⟨hblocks, hunspent⟩ := update_ok_state cd hf c₀ b c' hupd
    rw [hblocks] at hfresh
    obtain ⟨hdiag, hpw⟩ := hfresh
    obtain ⟨hpw0, -, hcross⟩ := List.pairwise_append.mp hpw
    have hfresh0 : FreshOutputs c₀.blocks :=
      ⟨fun x hx => hdiag x (by simp [hx]), hpw0⟩
    have hdSb : Disjoint (blockCreated b) (blockSpent b) :=
      hdiag b (by simp)
    have hdS : Disjoint (blockCreated b) (chainSpent c₀.blocks) :=
      disjoint_chainSpent _ _
        fun a ha => hcross a ha b (by simp)
    rw [hunspent, hblocks, chainCreated_append, chainSpent_append,
      ih hfresh0]
    ext x
    simp only [Finset.mem_union, Finset.mem_sdiff]
    have h1 : x ∈ blockCreated b → x ∉ chainSpent c₀.blocks :=
      fun hcb => Finset.disjoint_left.mp hdS hcb
    have h2 : x ∈ blockCreated b → x ∉ blockSpent b :=
      fun hcb => Finset.disjoint_left.mp hdSb hcb
    tauto

/-- Coinbase of the C2 witness second block: creates output `[7]`. -/
def wtCoinbase1 : Transaction :=
  { is_coinbase := true, input_hashes := ∅, output_hashes := {[7]},
    input_value := 0, output_value := 0 }

/-- Second block of the C2 witness chain: spends `[5]`, creates the fresh
identifier `[6]`. -/
def wtSecond : Block :=
  { index := 1, timestamp := 1, prev_block_hash := [1], hash := [2],
    transactions :=
      [wtCoinbase1,
       { is_coinbase := false, input_hashes := {[5]},
         output_hashes := {[6]}, input_value := 5, output_value := 5 }] }

/-- Ledger after accepting the two fresh witness blocks. -/
def wtFinal : Blockchain :=
  { blocks := [cexGenesis, wtSecond], unspent_outputs := {[6], [7]},
    difficulty := 0 }

/-- Witness for C2 (amended): on a reachable two-block chain with fresh
output identifiers, the unspent set equals created minus consumed. -/
theorem c2_witness :
    wtFinal.unspent_outputs =
      chainCreated wtFinal.blocks \ chainSpent wtFinal.blocks :=
  c2_utxo_set (fun _ _ => true) (fun _ => []) wtFinal
    (Reachable.step
      (c := cexMid) (b := wtSecond)
      (Reachable.step (c := Blockchain.new 0) (b := cexGenesis)
        (Reachable.base 0) (by decide))
      (by decide))
    (by constructor
        · decide
        · decide)
